import Mathlib

/-!
Verification of the memory-management, scheduling, disk and file-system core
of a small x86 teaching kernel, against its C++ sources.

Each subsystem is shallowly embedded: the C functions become Lean functions
over explicit state records, machine integers become `Nat` (with explicit
`% 2 ^ 32` where 32-bit wrap-around is reachable), fatal `assert(false)`
paths become `Option.none`, and `while` loops become structurally recursive
functions on an explicit fuel argument that is chosen, at every call site, at
least as large as the number of iterations the C loop can perform there.
-/

/-- Pointwise update of a function, mirroring an array store `f[k] = v`. -/
def upd {α : Type} (f : Nat → α) (k : Nat) (v : α) : Nat → α :=
  fun x => if x = k then v else f x

theorem upd_same {α : Type} (f : Nat → α) (k : Nat) (v : α) : upd f k v k = v := by
  simp [upd]

theorem upd_ne {α : Type} (f : Nat → α) (k : Nat) (v : α) (x : Nat) (h : x ≠ k) :
    upd f k v x = f x := by
  simp [upd, h]

namespace VMPool

/-- PageTable::PAGE_SIZE (4 KiB x86 pages). -/
def PAGE_SIZE : Nat := 4096

/-- Modulus of the 32-bit `unsigned long` arithmetic used by vm_pool.C. -/
def M : Nat := 2 ^ 32

/-- 32-bit wrap-around addition. -/
def wadd (a b : Nat) : Nat := (a + b) % M

/-- 32-bit wrap-around subtraction (two's complement). -/
def wsub (a b : Nat) : Nat := (a + (M - b % M)) % M

/-- One `allocated_region_info` record: `{base_address, length}`. -/
structure Region where
  base_address : Nat
  length : Nat
deriving DecidableEq

/-- The VMPool state that `allocate`/`release` manipulate: the pool window,
the first `num_regions` entries of the in-band region table, and
`available_memory`. -/
structure State where
  base_address : Nat
  size : Nat
  regions : List Region
  available_memory : Nat
deriving DecidableEq

/-- VMPool::VMPool — reserves the first virtual page as region 0 (the
region-table metadata page) and reports `available = size - PAGE_SIZE`. -/
def init (base size : Nat) : State :=
  { base_address := base
    size := size
    regions := [⟨base, PAGE_SIZE⟩]
    available_memory := wsub size PAGE_SIZE }

/-- VMPool::allocate.  Fails (assert) when `_size > available_memory`;
otherwise rounds up to whole pages, appends a region at the previous
region's end and decrements `available_memory` by the rounded size. -/
def allocate (st : State) (n : Nat) : Option (Nat × State) :=
  if st.available_memory < n then none
  else
    let pages := n / PAGE_SIZE + (if n % PAGE_SIZE > 0 then 1 else 0)
    let prev := st.regions.getLastD ⟨0, 0⟩
    let newBase := wadd prev.base_address prev.length
    let len := pages * PAGE_SIZE % M
    some (newBase,
      { st with
          regions := st.regions ++ [⟨newBase, len⟩]
          available_memory := wsub st.available_memory (pages * PAGE_SIZE) })

/-- VMPool::release.  Finds the region whose base matches (scanning from
index 1), left-shifts the later records, and only afterwards reads
`ptr_vm_region[region_no].length` to credit `available_memory` — exactly as
the C code does, so for a non-last region the length credited is the
*following* region's.  The per-page `page_table->free_page` calls touch only
the page table, not this state.  Fails (assert) when no region matches. -/
def release (st : State) (start : Nat) : Option State :=
  match (List.range st.regions.length).find?
      (fun i => decide (1 ≤ i) && ((st.regions.getD i ⟨0, 0⟩).base_address == start)) with
  | none => none
  | some rno =>
    let lenRead :=
      if rno + 1 < st.regions.length then (st.regions.getD (rno + 1) ⟨0, 0⟩).length
      else (st.regions.getD rno ⟨0, 0⟩).length
    some { st with
            regions := st.regions.eraseIdx rno
            available_memory := wadd st.available_memory lenRead }

/-- The two-allocation-then-release run used to exhibit the release
accounting slip: a 16 MiB pool at base 0x200000, `allocate(0x1000)`,
`allocate(0x2000)`, then `release` of the first allocated region. -/
def c5run : Option State := do
  let (_, s1) ← allocate (init 0x200000 0x1000000) 0x1000
  let (_, s2) ← allocate s1 0x2000
  release s2 0x201000

end VMPool

namespace MP2CFP

/-- ContFramePool::FRAME_SIZE. -/
def FRAME_SIZE : Nat := 4096

/-- MP2's ContFramePool::needed_info_frames:
`(_n_frames + FRAME_SIZE - 1) / FRAME_SIZE` — one byte of state per frame. -/
def needed_info_frames (n : Nat) : Nat := (n + FRAME_SIZE - 1) / FRAME_SIZE

end MP2CFP

namespace MP5CFP

/-- Frame states of the MP5 ContFramePool (packed as 2-bit codes:
Free = 0b00, Used = 0b01, HoS = 0b11). -/
inductive FrameState
  | Free
  | Used
  | HoS
deriving DecidableEq

/-- One MP5 ContFramePool.  `codes` holds the 2-bit state code of each frame
(the C code packs four per bitmap byte; the fields never interact, so one
code per entry is the same data). -/
structure Pool where
  base_frame_no : Nat
  n_frames : Nat
  codes : List Nat
  num_free_frames : Nat
deriving DecidableEq

/-- get_state's decoding of a 2-bit code, including its default-to-Used
fallback for the unused pattern 0b10. -/
def decode (c : Nat) : FrameState :=
  if c = 0 then .Free else if c = 1 then .Used else if c = 3 then .HoS else .Used

def get_state (p : Pool) (f : Nat) : FrameState := decode (p.codes.getD f 0)

/-- set_state's bit operations on the frame's 2-bit field: Free clears both
bits, Used XORs in 0b01, HoS XORs in 0b11 (the C code uses `&= ~mask`
respectively `^= mask`). -/
def setCode (c : Nat) : FrameState → Nat
  | .Free => 0
  | .Used => c ^^^ 1
  | .HoS => c ^^^ 3

def set_state (p : Pool) (f : Nat) (s : FrameState) : Pool :=
  { p with codes := p.codes.set f (setCode (p.codes.getD f 0) s) }

/-- The run-length scan inside MP5's get_frames: walks `idx` upward keeping
the start and length of the current run of Free frames, and answers the
start index of the first run that reaches length `n`.  The fuel starts at
`n_frames`, the number of iterations the C `for` loop can perform. -/
def findRun (p : Pool) (n : Nat) : Nat → Nat → Nat → Nat → Option Nat
  | _, _, _, 0 => none
  | idx, runStart, runLen, fuel + 1 =>
    if idx < p.n_frames then
      if get_state p idx = .Free then
        let rs := if runLen = 0 then idx else runStart
        if runLen + 1 = n then some rs
        else findRun p n (idx + 1) rs (runLen + 1) fuel
      else findRun p n (idx + 1) runStart 0 fuel
    else none

/-- Marks frames `[rs, rs + n)`: the first HoS, the rest Used (the marking
loop at the end of MP5's get_frames; the sets touch pairwise distinct
indices, so applying them in this order equals the C loop's order). -/
def markRange (p : Pool) (rs : Nat) : Nat → Pool
  | 0 => p
  | k + 1 => set_state (markRange p rs k) (rs + k) (if k = 0 then .HoS else .Used)

/-- MP5's ContFramePool::get_frames.  Asserts (fatally) when the request
exceeds the free-frame count or the pool size, or when no contiguous run
exists; returns the absolute first frame number otherwise. -/
def get_frames (p : Pool) (n : Nat) : Option (Nat × Pool) :=
  if p.num_free_frames < n ∨ p.n_frames < n then none
  else
    match findRun p n 0 0 0 p.n_frames with
    | none => none
    | some rs =>
      let p1 := markRange p rs n
      some (rs + p.base_frame_no, { p1 with num_free_frames := p1.num_free_frames - n })

/-- The body of MP5's mark_inaccessible walk: frame `first + k` (absolute) is
marked — relative index `first + k - base` — when currently Free, HoS for
the first frame and Used for the rest, decrementing the free count. -/
def markInacc (p : Pool) (first : Nat) : Nat → Pool
  | 0 => p
  | k + 1 =>
    let p1 := markInacc p first k
    let rel := first + k - p1.base_frame_no
    if get_state p1 rel = .Free then
      let p2 := set_state p1 rel (if k = 0 then .HoS else .Used)
      { p2 with num_free_frames := p2.num_free_frames - 1 }
    else p1

/-- MP5's ContFramePool::mark_inaccessible: validates that the requested
range lies inside the pool (assert otherwise), then marks it. -/
def mark_inaccessible (p : Pool) (base n : Nat) : Option Pool :=
  if p.base_frame_no + p.n_frames < base + n ∨ base < p.base_frame_no then none
  else some (markInacc p base n)

/-- The freeing walk of MP5's release_frames_in_pool: starting at absolute
frame `ci`, while the state read at *relative* index `ci - base` is not
Free, the frame at *absolute* index `ci` is set Free — the same
absolute/relative mix as the source.  Note the loop keeps going over Used
AND HoS frames: it stops only at a Free one.  The C loop has no bounds
check; fuel `n_frames` covers every in-bounds traversal, and the runs
below stop at a Free frame well inside the pool. -/
def relLoop (base : Nat) : Nat → Pool → Nat → Pool
  | 0, p, _ => p
  | fuel + 1, p, ci =>
    if get_state p (ci - base) ≠ .Free then
      let p1 := set_state p ci .Free
      relLoop base fuel { p1 with num_free_frames := p1.num_free_frames + 1 } (ci + 1)
    else p

/-- MP5's ContFramePool::release_frames_in_pool: requires the first frame's
(relative) state to be HoS, frees it at its *absolute* index, then runs the
freeing walk from the next frame. -/
def release_frames_in_pool (p : Pool) (first : Nat) : Option Pool :=
  if get_state p (first - p.base_frame_no) = .HoS then
    let p1 := set_state p first .Free
    let p2 := { p1 with num_free_frames := p1.num_free_frames + 1 }
    some (relLoop p.base_frame_no p.n_frames p2 (first + 1))
  else none

/-- The MP5 ContFramePool constructor with an external info frame
(`info_frame_no != 0`): all frames Free, nothing reserved; it asserts that
`n_frames` is a multiple of 8. -/
def mkPoolExternalInfo (base n : Nat) : Option Pool :=
  if n % 8 = 0 then
    some { base_frame_no := base, n_frames := n
           codes := List.replicate n 0, num_free_frames := n }
  else none

/-- MP5's ContFramePool::needed_info_frames: 2 bits per frame against
32768 bits per info frame, rounding up. -/
def needed_info_frames (n : Nat) : Nat :=
  n * 2 / 32768 + (if n * 2 % 32768 > 0 then 1 else 0)

/-- The C2 failing run: a fresh 8-frame pool at base 0 with an external info
frame; `mark_inaccessible(2, 2)` creates the allocation `HoS,Used` at
frames 2-3, `get_frames(2)` then allocates frames 0-1 in front of it, and
`release_frames_in_pool(0)` releases that allocation.
Returns (pre-allocation codes, post-release codes). -/
def c2run : Option (List Nat × List Nat) := do
  let p0 ← mkPoolExternalInfo 0 8
  let p1 ← mark_inaccessible p0 2 2
  let (fr, p2) ← get_frames p1 2
  if fr ≠ 0 then none
  else
    let p3 ← release_frames_in_pool p2 0
    pure (p1.codes, p3.codes)

end MP5CFP

namespace Mp3PT

/-- PAGE_SIZE of the paging subsystem. -/
def PAGE_SIZE : Nat := 4096

/-- The machine state the Mp3 fault handler manipulates: the current page
directory (CR3), the page tables it reaches through physical addresses
inside the identity-mapped shared region (indexed here by the directory
slot that points at them), and the two frame pools.  `get_frames(1)` on a
pool is abstracted as a stream: it returns `kNext`/`pNext` and bumps the
allocation counter — the claims under test count allocations and use the
returned frame number only. -/
structure M where
  pageDir : Nat → Nat
  pageTables : Nat → Nat → Nat
  kNext : Nat
  kAllocs : Nat
  pNext : Nat
  pAllocs : Nat

/-- `(fault_address >> 22) & 0x3FF` — the page-directory index. -/
def pdIndex (addr : Nat) : Nat := addr >>> 22 &&& 0x3FF

/-- `(fault_address >> 12) & 0x3FF` — the page-table index. -/
def ptIndex (addr : Nat) : Nat := addr >>> 12 &&& 0x3FF

/-- `PRESENT | WRITE | USER` when the error code has the user bit,
`PRESENT | WRITE` otherwise. -/
def faultFlags (errCode : Nat) : Nat :=
  if errCode &&& 4 ≠ 0 then 1 ||| 2 ||| 4 else 1 ||| 2

/-- Mp3's PageTable::handle_fault.  Present (protection) faults assert
fatally.  A missing directory entry takes one frame from the *kernel* pool,
installs it with Present|RW (plus User when the fault came from user mode)
and zero-fills the new table; the handler then asserts that the new table
lies inside the identity-mapped shared region.  A missing table entry takes
one frame from the *process* pool and installs it with the same flags. -/
def handle_fault (shared errCode addr : Nat) (m : M) : Option M :=
  if errCode % 2 = 1 then none
  else
    let pdi := pdIndex addr
    let pti := ptIndex addr
    let flags := faultFlags errCode
    let afterPDE : Option M :=
      if m.pageDir pdi % 2 = 0 then
        let fr := m.kNext
        if fr * PAGE_SIZE + PAGE_SIZE ≤ shared then
          some { m with
                  kNext := m.kNext + 1
                  kAllocs := m.kAllocs + 1
                  pageDir := upd m.pageDir pdi (fr * PAGE_SIZE ||| flags)
                  pageTables := fun p => if p = pdi then (fun _ => 0) else m.pageTables p }
        else none
      else some m
    match afterPDE with
    | none => none
    | some m1 =>
      if m1.pageTables pdi pti % 2 = 0 then
        some { m1 with
                pNext := m1.pNext + 1
                pAllocs := m1.pAllocs + 1
                pageTables := fun p t =>
                  if p = pdi ∧ t = pti then m1.pNext * PAGE_SIZE ||| flags
                  else m1.pageTables p t }
      else some m1

end Mp3PT

namespace MP4PT

/-- PAGE_SIZE of the paging subsystem. -/
def PAGE_SIZE : Nat := 4096

/-- The machine state of the MP4 fault handler.  Same frame-pool-as-stream
abstraction as `Mp3PT.M`; the writes the C code performs through the
recursive mapping (`0xFFFFF000` for the directory, `(0x3FF<<22)|(pdi<<12)`
for a table) are the updates of `pageDir` and `pageTables pdi`.  `pools`
holds the registered VMPools as `(base_address, size)` pairs. -/
structure M where
  pageDir : Nat → Nat
  pageTables : Nat → Nat → Nat
  pools : List (Nat × Nat)
  kNext : Nat
  kAllocs : Nat
  pNext : Nat
  pAllocs : Nat

/-- `fault_address >> 22` — MP4 computes the directory index unmasked. -/
def pdIndex (addr : Nat) : Nat := addr >>> 22

/-- `(fault_address & (0x03FF << 12)) >> 12` — MP4's page-table index. -/
def ptIndex (addr : Nat) : Nat := (addr &&& (0x3FF <<< 12)) >>> 12

/-- MP4's PageTable::handle_fault.  Present faults fall through with no
action.  The legitimacy guard is kept verbatim: the loop leaves
`tmp != nullptr` exactly when it broke with `present_flag = 1`, so the
abort condition `tmp != nullptr && present_flag == 0` can never hold.  A
missing directory entry allocates the new page table from the *process*
pool, installs it with flags 0b11 and fills its 1024 entries with 0b100;
then — without checking the table entry — one more process-pool frame is
installed in the table entry with flags 0b11.  When the directory entry is
present the same unconditional table-entry install happens. -/
def handle_fault (errCode addr : Nat) (m : M) : Option M :=
  if errCode % 2 = 0 then
    let pdi := pdIndex addr
    let pti := ptIndex addr
    let found := m.pools.find? (fun p => decide (p.1 ≤ addr ∧ addr < p.1 + p.2))
    if found.isSome = true ∧ found.isSome = false then none
    else if m.pageDir pdi % 2 = 0 then
      let npt := m.pNext
      let m1 : M :=
        { m with
            pNext := m.pNext + 1
            pAllocs := m.pAllocs + 1
            pageDir := upd m.pageDir pdi (npt * PAGE_SIZE ||| 3)
            pageTables := fun p => if p = pdi then (fun _ => 4) else m.pageTables p }
      let dfr := m1.pNext
      some { m1 with
              pNext := m1.pNext + 1
              pAllocs := m1.pAllocs + 1
              pageTables := fun p t =>
                if p = pdi ∧ t = pti then dfr * PAGE_SIZE ||| 3
                else m1.pageTables p t }
    else
      let dfr := m.pNext
      some { m with
              pNext := m.pNext + 1
              pAllocs := m.pAllocs + 1
              pageTables := fun p t =>
                if p = pdi ∧ t = pti then dfr * PAGE_SIZE ||| 3
                else m.pageTables p t }
  else some m

/-- A concrete MP4 machine whose directory entry 5 and table entry (5,6) are
both Present — i.e. virtual address `5·2^22 + 6·2^12` is already mapped. -/
def mappedM : M :=
  { pageDir := fun i => if i = 5 then 0x1000 ||| 3 else 2
    pageTables := fun p t => if p = 5 ∧ t = 6 then 0x2000 ||| 3 else 0
    pools := []
    kNext := 50, kAllocs := 0, pNext := 77, pAllocs := 0 }

/-- A concrete MP4 machine with no Present directory entry. -/
def emptyM : M :=
  { pageDir := fun _ => 2
    pageTables := fun _ _ => 0
    pools := []
    kNext := 50, kAllocs := 0, pNext := 77, pAllocs := 0 }

end MP4PT

namespace MP5Sched

/-- MP5's Scheduler::yield: with an empty ready queue the caller keeps
running; otherwise the head is dequeued and dispatched.  Threads are their
ids; the result is (thread dispatched to, remaining ready queue). -/
def yield (q : List Nat) : Option Nat × List Nat :=
  match q with
  | [] => (none, [])
  | t :: ts => (some t, ts)

/-- One pass of MP5's Scheduler::terminate loop: for `index` from 0 while
`index < qsize`, dequeue the head; re-enqueue it unless its id matches,
in which case `qsize` is decremented.  `qsize` is read anew each test, so
a removal shortens the loop.  Fuel `q.length` bounds the iterations
(`index` grows by one each pass and `qsize` never grows). -/
def termLoop (tid : Nat) : Nat → List Nat → Nat → Nat → List Nat × Nat
  | 0, q, _, qsize => (q, qsize)
  | fuel + 1, q, index, qsize =>
    if index < qsize then
      match q with
      | [] => (q, qsize)
      | top :: rest =>
        if top = tid then termLoop tid fuel rest (index + 1) (qsize - 1)
        else termLoop tid fuel (rest ++ [top]) (index + 1) qsize
    else (q, qsize)

/-- MP5's Scheduler::terminate. -/
def terminate (q : List Nat) (tid : Nat) : List Nat :=
  (termLoop tid q.length q 0 q.length).1

end MP5Sched

namespace MP6Sched

/-- MP6's Scheduler::yield: the current thread (when non-null) is first
re-enqueued via `resume`, then the head of the queue — if any — is
dequeued and dispatched. -/
def yield (current : Option Nat) (q : List Nat) : Option Nat × List Nat :=
  let q1 := match current with
    | some t => q ++ [t]
    | none => q
  match q1 with
  | [] => (none, [])
  | t :: ts => (some t, ts)

/-- MP6's Scheduler::terminate: walks the linked queue and unlinks the first
node holding the thread; a thread that is not found leaves the queue
untouched. -/
def terminate (q : List Nat) (tid : Nat) : List Nat :=
  match q with
  | [] => []
  | t :: ts => if t = tid then ts else t :: terminate ts tid

end MP6Sched

namespace NBDisk

/-- The NonBlockingDisk state visible to its interrupt handler: the BSY bit
of the status register, the FIFO queue of blocked threads (ids), whether
`System::SCHEDULER` is non-null, and the `waiting_for_interrupt` flag. -/
structure State where
  busy : Bool
  blocked : List Nat
  schedPresent : Bool
  waiting : Bool
deriving DecidableEq

/-- NonBlockingDisk::wake_next_blocked_thread (part_003): when the blocked
queue is non-empty and the scheduler exists, the queue head is dequeued and
handed to `scheduler.resume`; the second component is the thread resumed. -/
def wake_next_blocked_thread (s : State) : State × Option Nat :=
  match s.blocked, s.schedPresent with
  | t :: rest, true =>
    ({ s with blocked := rest, waiting := if rest = [] then false else s.waiting }, some t)
  | _, _ => (s, none)

/-- NonBlockingDisk::handle_interrupt (part_003, the IRQ14 handler): wake
one blocked thread when the disk is not busy, otherwise do nothing. -/
def handle_interrupt (s : State) : State × Option Nat :=
  if s.busy then (s, none) else wake_next_blocked_thread s

end NBDisk

/-! ## Claim C9 — needed_info_frames -/

/-- C9 (amended): MP5's `needed_info_frames` returns `ceil(2·n / (4096·8))`
for every `n`, as the claim states; MP2's implementation instead returns
`ceil(n / 4096)` (one byte of state per frame), which is never smaller. -/
theorem C9_needed_info_frames (n : Nat) :
    MP5CFP.needed_info_frames n = (2 * n + 32767) / 32768 ∧
    MP2CFP.needed_info_frames n = (n + 4095) / 4096 ∧
    MP5CFP.needed_info_frames n ≤ MP2CFP.needed_info_frames n := by
  refine ⟨?_, ?_, ?_⟩
  · unfold MP5CFP.needed_info_frames
    split <;> omega
  · unfold MP2CFP.needed_info_frames MP2CFP.FRAME_SIZE
    omega
  · unfold MP5CFP.needed_info_frames MP2CFP.needed_info_frames MP2CFP.FRAME_SIZE
    split <;> omega

/-- C9 counterexample: at `n = 4097` the MP2 implementation returns 2 while
`ceil(2·4097/32768) = 1`, so the claim is false of MP2's code. -/
theorem C9_counterexample :
    MP2CFP.needed_info_frames 4097 = 2 ∧ (2 * 4097 + 32767) / 32768 = 1 ∧
    MP2CFP.needed_info_frames 4097 ≠ (2 * 4097 + 32767) / 32768 := by
  decide

/-! ## Claim C7 — Scheduler::yield -/

/-- C7 (amended): MP5's `yield` dispatches to the head of the ready queue,
leaves its tail, never enqueues any thread, and with an empty queue
dispatches nothing (the caller keeps running).  MP6's `yield`, by contrast,
first re-enqueues the caller (when non-null) and then dispatches the head
of the extended queue; in particular with an empty queue it re-dispatches
the caller itself. -/
theorem C7_yield (q : List Nat) (cur : Option Nat) (t : Nat) :
    (MP5Sched.yield q).1 = q.head? ∧
    (MP5Sched.yield q).2 = q.tail ∧
    ((MP5Sched.yield q).2).count t ≤ q.count t ∧
    (MP6Sched.yield cur q).1 = (q ++ cur.toList).head? ∧
    (MP6Sched.yield cur q).2 = (q ++ cur.toList).tail ∧
    MP6Sched.yield (some t) [] = (some t, []) := by
  refine ⟨?_, ?_, ?_, ?_, ?_, ?_⟩ <;>
    cases q <;> cases cur <;>
      simp [MP5Sched.yield, MP6Sched.yield, List.count_cons]

/-- C7 counterexample: MP6's `yield`, called with current thread 1 and ready
queue `[2]`, leaves thread 1 on the ready queue — `yield` itself enqueued
the calling thread, contradicting the claim. -/
theorem C7_counterexample :
    MP6Sched.yield (some 1) [2] = (some 2, [1]) ∧
    1 ∉ ([2] : List Nat) ∧ 1 ∈ (MP6Sched.yield (some 1) [2]).2 := by
  decide

/-! ## Claim C8 — disk interrupt wakes at most one thread -/

/-- C8: each invocation of NonBlockingDisk::handle_interrupt resumes at most
one thread: when the disk is ready and the blocked queue is non-empty,
exactly the queue head is dequeued and resumed; when the disk is busy or
the queue is empty, nothing is resumed and the queue is unchanged.
(The scheduler is non-null: the constructor asserts it.) -/
theorem C8_disk_wake_one (s : NBDisk.State) (h : s.schedPresent = true) :
    (s.busy = false → s.blocked ≠ [] →
      (NBDisk.handle_interrupt s).2 = s.blocked.head? ∧
      (NBDisk.handle_interrupt s).1.blocked = s.blocked.tail) ∧
    (s.busy = true ∨ s.blocked = [] →
      (NBDisk.handle_interrupt s).2 = none ∧
      (NBDisk.handle_interrupt s).1.blocked = s.blocked) := by
  obtain ⟨busy, blocked, sp, w⟩ := s
  cases h
  cases busy <;> cases blocked <;>
    simp [NBDisk.handle_interrupt, NBDisk.wake_next_blocked_thread]

/-- C8 witness: a ready disk with blocked queue `[4, 5]` resumes exactly
thread 4 and leaves `[5]` blocked. -/
theorem C8_witness :
    (NBDisk.handle_interrupt ⟨false, [4, 5], true, true⟩).2 = some 4 ∧
    (NBDisk.handle_interrupt ⟨false, [4, 5], true, true⟩).1.blocked = [5] := by
  have h := (C8_disk_wake_one ⟨false, [4, 5], true, true⟩ rfl).1 rfl (by decide)
  simpa using h

/-! ## Claim C2 — release_frames as inverse of get_frames -/

/-- C2 (code bug): on the failing input — a fresh 8-frame pool, an
allocation `HoS,Used` at frames 2-3 made by `mark_inaccessible(2,2)`, then
`get_frames(2)` placing a second allocation at frames 0-1 —
MP5's `release_frames_in_pool(0)` frees ALL of frames 0-3: its walk stops
only at a Free frame, so it runs straight over the HoS at frame 2 instead
of stopping there, and the pre-allocation bitmap `[0,0,3,1,0,0,0,0]`
(codes: 0 = Free, 1 = Used, 3 = HoS) is not restored. -/
theorem C2_release_overruns_HoS :
    MP5CFP.c2run = some ([0, 0, 3, 1, 0, 0, 0, 0], [0, 0, 0, 0, 0, 0, 0, 0]) ∧
    ([0, 0, 3, 1, 0, 0, 0, 0] : List Nat) ≠ [0, 0, 0, 0, 0, 0, 0, 0] := by
  decide

/-! ## Claim C5 — VMPool accounting -/

/-- C5 (code bug): in the 16 MiB pool at 0x200000, after allocating 0x1000
and 0x2000 bytes (`available = 0xFFC000`), releasing the first region —
length 0x1000 — credits `available` with 0x2000, the length of the record
that was shifted into its slot, leaving `available = 0xFFE000`; with the
remaining region lengths 0x1000 + 0x2000 this gives
`available + Σ length = 0x1001000 ≠ size = 0x1000000`. -/
theorem C5_release_miscredits :
    (VMPool.c5run.map fun st =>
        (st.available_memory, (st.regions.map VMPool.Region.length).sum)) =
      some (0xFFE000, 0x3000) ∧
    (VMPool.c5run.map fun st => st.available_memory) = some (0xFFC000 + 0x2000) ∧
    0xFFE000 + 0x3000 ≠ 0x1000000 := by
  refine ⟨by decide, by decide, by decide⟩

/-! ## Claims C3, C4 — PageTable::handle_fault -/

/-- A Bool cannot be both true and false (the shape of MP4's dead
legitimacy guard). -/
theorem bool_not_true_and_false : ∀ b : Bool, ¬(b = true ∧ b = false) := by
  decide

/-- C3 (amended): for a not-present fault with an absent page-directory
entry, Mp3's handler behaves exactly as claimed: one frame from the kernel
pool becomes the new page table, installed zeroed, with the directory and
table entries both carrying Present|RW (plus User for a user-mode fault,
`faultFlags`), and one frame from the process pool is installed in the
table entry.  MP4's handler instead draws *both* frames from the process
pool, fills the fresh table's other entries with 0b100 rather than zero,
and installs both entries with Present|RW only. -/
theorem C3_handle_fault (shared errCode addr : Nat) (m3 : Mp3PT.M) (m4 : MP4PT.M)
    (hnp : errCode % 2 = 0)
    (hpde3 : m3.pageDir (Mp3PT.pdIndex addr) % 2 = 0)
    (hshared : m3.kNext * 4096 + 4096 ≤ shared)
    (hpde4 : m4.pageDir (MP4PT.pdIndex addr) % 2 = 0) :
    ((Mp3PT.handle_fault shared errCode addr m3).map fun m' =>
        (m'.kAllocs, m'.pAllocs,
         m'.pageDir (Mp3PT.pdIndex addr),
         m'.pageTables (Mp3PT.pdIndex addr) (Mp3PT.ptIndex addr))) =
      some (m3.kAllocs + 1, m3.pAllocs + 1,
            m3.kNext * 4096 ||| Mp3PT.faultFlags errCode,
            m3.pNext * 4096 ||| Mp3PT.faultFlags errCode) ∧
    (∀ t, t ≠ Mp3PT.ptIndex addr →
      ((Mp3PT.handle_fault shared errCode addr m3).map fun m' =>
          m'.pageTables (Mp3PT.pdIndex addr) t) = some 0) ∧
    ((MP4PT.handle_fault errCode addr m4).map fun m' =>
        (m'.kAllocs, m'.pAllocs,
         m'.pageDir (MP4PT.pdIndex addr),
         m'.pageTables (MP4PT.pdIndex addr) (MP4PT.ptIndex addr))) =
      some (m4.kAllocs, m4.pAllocs + 2,
            m4.pNext * 4096 ||| 3,
            (m4.pNext + 1) * 4096 ||| 3) ∧
    (∀ t, t ≠ MP4PT.ptIndex addr →
      ((MP4PT.handle_fault errCode addr m4).map fun m' =>
          m'.pageTables (MP4PT.pdIndex addr) t) = some 4) := by
  have h1 : ¬(errCode % 2 = 1) := by omega
  refine ⟨?_, ?_, ?_, ?_⟩
  · simp [Mp3PT.handle_fault, Mp3PT.PAGE_SIZE, h1, hpde3, hshared, upd]
  · intro t ht
    simp [Mp3PT.handle_fault, Mp3PT.PAGE_SIZE, h1, hpde3, hshared, upd, ht]
  · simp [MP4PT.handle_fault, MP4PT.PAGE_SIZE, hnp, hpde4,
      bool_not_true_and_false, upd]
  · intro t ht
    simp [MP4PT.handle_fault, MP4PT.PAGE_SIZE, hnp, hpde4,
      bool_not_true_and_false, upd, ht]

/-- A concrete Mp3 machine with no Present page-directory entry. -/
def c3m3 : Mp3PT.M :=
  { pageDir := fun _ => 2, pageTables := fun _ _ => 0
    kNext := 50, kAllocs := 0, pNext := 77, pAllocs := 0 }

/-- C3 witness: a user-mode not-present fault at `5·2^22 + 6·2^12` on
`c3m3` (empty directory) draws exactly one kernel-pool frame and one
process-pool frame in the Mp3 handler, installing 50·4096|7 and 77·4096|7. -/
theorem C3_witness :
    ((Mp3PT.handle_fault 0x400000 4 (5 * 2 ^ 22 + 6 * 2 ^ 12) c3m3).map fun m' =>
        (m'.kAllocs, m'.pAllocs,
         m'.pageDir (Mp3PT.pdIndex (5 * 2 ^ 22 + 6 * 2 ^ 12)),
         m'.pageTables (Mp3PT.pdIndex (5 * 2 ^ 22 + 6 * 2 ^ 12))
           (Mp3PT.ptIndex (5 * 2 ^ 22 + 6 * 2 ^ 12)))) =
      some (1, 1, 50 * 4096 ||| 7, 77 * 4096 ||| 7) := by
  have h := (C3_handle_fault 0x400000 4 (5 * 2 ^ 22 + 6 * 2 ^ 12) c3m3 MP4PT.emptyM
    (by decide) (by decide) (by decide) (by decide)).1
  simpa [c3m3, Mp3PT.faultFlags] using h

/-- C3 counterexample: on MP4's handler the same missing-directory fault
draws zero frames from the kernel pool and two from the process pool —
not one from each as the claim states. -/
theorem C3_counterexample :
    (MP4PT.handle_fault 0 (5 * 2 ^ 22 + 6 * 2 ^ 12) MP4PT.emptyM).map
        (fun m => (m.kAllocs, m.pAllocs)) = some (0, 2) ∧
    ((0 : Nat), (2 : Nat)) ≠ (1, 1) := by
  refine ⟨by decide, by decide⟩

/-- C4 (amended): Mp3's handler really is idempotent — a not-present fault
at an address whose directory and table entries are both Present allocates
nothing and leaves the machine unchanged.  MP4's handler is not: it skips
the table-entry check and draws a fresh process-pool frame (see the
counterexample). -/
theorem C4_mapped_no_alloc (shared errCode addr : Nat) (m : Mp3PT.M)
    (hnp : errCode % 2 = 0)
    (hpde : m.pageDir (Mp3PT.pdIndex addr) % 2 = 1)
    (hpte : m.pageTables (Mp3PT.pdIndex addr) (Mp3PT.ptIndex addr) % 2 = 1) :
    Mp3PT.handle_fault shared errCode addr m = some m := by
  have h1 : ¬(errCode % 2 = 1) := by omega
  have h2 : ¬(m.pageDir (Mp3PT.pdIndex addr) % 2 = 0) := by omega
  have h3 : ¬(m.pageTables (Mp3PT.pdIndex addr) (Mp3PT.ptIndex addr) % 2 = 0) := by
    omega
  simp [Mp3PT.handle_fault, h1, h2, h3]

/-- A concrete Mp3 machine on which `5·2^22 + 6·2^12` is already mapped. -/
def c4m3 : Mp3PT.M :=
  { pageDir := fun i => if i = 5 then 3 else 0
    pageTables := fun p t => if p = 5 ∧ t = 6 then 3 else 0
    kNext := 50, kAllocs := 0, pNext := 77, pAllocs := 0 }

/-- C4 witness: a second fault at the mapped address `5·2^22 + 6·2^12`
leaves `c4m3` untouched — no allocation from any pool. -/
theorem C4_witness :
    Mp3PT.handle_fault 0 0 (5 * 2 ^ 22 + 6 * 2 ^ 12) c4m3 = some c4m3 :=
  C4_mapped_no_alloc 0 0 (5 * 2 ^ 22 + 6 * 2 ^ 12) c4m3
    (by decide) (by decide) (by decide)

/-- C4 counterexample: MP4's handler, invoked for a not-present fault at an
address whose directory AND table entries are Present (`mappedM`),
allocates one process-pool frame anyway, overwriting the mapping. -/
theorem C4_counterexample :
    MP4PT.mappedM.pageDir 5 % 2 = 1 ∧
    MP4PT.mappedM.pageTables 5 6 % 2 = 1 ∧
    (MP4PT.handle_fault 0 (5 * 2 ^ 22 + 6 * 2 ^ 12) MP4PT.mappedM).map
        (fun m => (m.kAllocs, m.pAllocs)) = some (0, 1) ∧
    ((0 : Nat), (1 : Nat)) ≠ (0, 0) := by
  refine ⟨by decide, by decide, by decide, by decide⟩

/-! ## Claim C6 — VMPool::allocate -/

namespace VMPool

/-- 32-bit wrap-around subtraction agrees with truncated subtraction when no
underflow occurs. -/
theorem wsub_eq_sub (a b : Nat) (hba : b ≤ a) (ha : a < M) : wsub a b = a - b := by
  unfold wsub M at *
  omega

/-- 32-bit wrap-around addition agrees with addition when no overflow
occurs. -/
theorem wadd_eq_add (a b : Nat) (h : a + b < M) : wadd a b = a + b := by
  unfold wadd M at *
  omega

end VMPool

/-- C6 (amended): `allocate(n)` fails exactly when `n > available` — the
pre-rounding byte count, not the claim's rounded size, is what the guard
compares (see the counterexample).  On success it rounds `n` up to whole
4 KiB pages, returns the previous region's end, appends a record of the
rounded length, and decrements `available` by the rounded size (with 32-bit
wrap-around; plain subtraction whenever the rounded size still fits).  In
the claim's concrete scenario — a 16 MiB pool at base `B`, allocations of
1, 2 and 3 pages — the returned addresses are `B+0x1000`, `B+0x2000`,
`B+0x4000` and `available` drops by 0x1000, 0x2000, 0x3000. -/
theorem C6_allocate_spec :
    (∀ (st : VMPool.State) (n : Nat),
      VMPool.allocate st n = none ↔ st.available_memory < n) ∧
    (∀ (st : VMPool.State) (n : Nat), n ≤ st.available_memory →
      ∃ a st', VMPool.allocate st n = some (a, st') ∧
        a = VMPool.wadd (st.regions.getLastD ⟨0, 0⟩).base_address
              (st.regions.getLastD ⟨0, 0⟩).length ∧
        st'.regions = st.regions ++
          [⟨a, (n + 4095) / 4096 * 4096 % VMPool.M⟩] ∧
        st'.available_memory =
          VMPool.wsub st.available_memory ((n + 4095) / 4096 * 4096) ∧
        ((n + 4095) / 4096 * 4096 ≤ st.available_memory →
          st.available_memory < VMPool.M →
          st'.available_memory =
            st.available_memory - (n + 4095) / 4096 * 4096)) ∧
    (∀ B, B + 0x1000000 ≤ VMPool.M →
      ∃ s1 s2 s3,
        VMPool.allocate (VMPool.init B 0x1000000) 0x1000 = some (B + 0x1000, s1) ∧
        s1.available_memory = 0xFFF000 - 0x1000 ∧
        VMPool.allocate s1 0x2000 = some (B + 0x2000, s2) ∧
        s2.available_memory = 0xFFE000 - 0x2000 ∧
        VMPool.allocate s2 0x3000 = some (B + 0x4000, s3) ∧
        s3.available_memory = 0xFFC000 - 0x3000) := by
  have hpages : ∀ n : Nat,
      (n / 4096 + if n % 4096 > 0 then 1 else 0) = (n + 4095) / 4096 := by
    intro n
    split <;> omega
  refine ⟨?_, ?_, ?_⟩
  · intro st n
    unfold VMPool.allocate
    split
    · simp [*]
    · simp
      omega
  · intro st n h
    unfold VMPool.allocate
    rw [if_neg (by omega)]
    refine ⟨_, _, rfl, rfl, ?_, ?_, ?_⟩
    · simp only [hpages, VMPool.PAGE_SIZE]
    · simp only [hpages, VMPool.PAGE_SIZE]
    · intro h1 h2
      simp only [hpages, VMPool.PAGE_SIZE]
      exact VMPool.wsub_eq_sub _ _ h1 h2
  · intro B hB
    have hM : VMPool.M = 4294967296 := rfl
    have hb1 : (B + 4096) % 4294967296 = B + 4096 := Nat.mod_eq_of_lt (by omega)
    have hb2 : (B + 8192) % 4294967296 = B + 8192 := Nat.mod_eq_of_lt (by omega)
    have hb3 : (B + 16384) % 4294967296 = B + 16384 := Nat.mod_eq_of_lt (by omega)
    refine ⟨⟨B, 0x1000000, [⟨B, 0x1000⟩, ⟨B + 0x1000, 0x1000⟩], 0xFFE000⟩,
      ⟨B, 0x1000000,
        [⟨B, 0x1000⟩, ⟨B + 0x1000, 0x1000⟩, ⟨B + 0x2000, 0x2000⟩], 0xFFC000⟩,
      ⟨B, 0x1000000,
        [⟨B, 0x1000⟩, ⟨B + 0x1000, 0x1000⟩, ⟨B + 0x2000, 0x2000⟩,
         ⟨B + 0x4000, 0x3000⟩], 0xFF9000⟩,
      ?_, by norm_num, ?_, by norm_num, ?_, by norm_num⟩ <;>
      simp [VMPool.allocate, VMPool.init, VMPool.PAGE_SIZE, VMPool.wadd,
        VMPool.wsub, VMPool.M, hb1, hb2, hb3]

/-- C6 witness: the first scenario allocation on a 16 MiB pool at 0x200000
returns 0x201000 and leaves 0xFFE000 bytes available. -/
theorem C6_witness :
    ∃ s1, VMPool.allocate (VMPool.init 0x200000 0x1000000) 0x1000 =
        some (0x201000, s1) ∧
      s1.available_memory = 0xFFE000 := by
  obtain ⟨s1, s2, s3, h1, h2, -⟩ :=
    C6_allocate_spec.2.2 0x200000 (by norm_num [VMPool.M])
  exact ⟨s1, by simpa using h1, by simpa using h2⟩

/-- C6 counterexample: on a pool of size 0x1800 the constructor leaves
`available = 0x800`; `allocate(0x500)` rounds to a full page 0x1000 >
available, yet the allocation SUCCEEDS — the guard compares the raw byte
count 0x500, so "fails whenever available < rounded size" is false. -/
theorem C6_counterexample :
    (VMPool.allocate (VMPool.init 0x100000 0x1800) 0x500).isSome = true ∧
    (VMPool.init 0x100000 0x1800).available_memory = 0x800 ∧
    (0x800 : Nat) < (0x500 + 4095) / 4096 * 4096 := by
  refine ⟨by decide, by decide, by decide⟩

/-! ## Claim C10 — Scheduler::terminate -/

namespace MP5Sched

/-- Once `index` has reached `qsize`, the terminate loop stops. -/
theorem termLoop_end (tid fuel : Nat) (q : List Nat) (index qsize : Nat)
    (h : qsize ≤ index) : termLoop tid fuel q index qsize = (q, qsize) := by
  cases fuel with
  | zero => rfl
  | succ f => simp [termLoop, Nat.not_lt.2 h]

/-- Dequeuing a head equal to the target removes it and shrinks `qsize`. -/
theorem termLoop_hit (tid fuel : Nat) (q : List Nat) (index qsize : Nat)
    (h : index < qsize) (hf : 1 ≤ fuel) :
    termLoop tid fuel (tid :: q) index qsize =
      termLoop tid (fuel - 1) q (index + 1) (qsize - 1) := by
  obtain ⟨f, rfl⟩ : ∃ f, fuel = f + 1 := ⟨fuel - 1, by omega⟩
  simp [termLoop, h]

/-- `k` loop passes over non-matching heads rotate the queue by `k`. -/
theorem termLoop_rotate (tid : Nat) :
    ∀ (k fuel : Nat) (q : List Nat) (index qsize : Nat),
      k ≤ q.length → (∀ x ∈ q.take k, x ≠ tid) → index + k ≤ qsize →
      k ≤ fuel →
      termLoop tid fuel q index qsize =
        termLoop tid (fuel - k) (q.rotate k) (index + k) qsize := by
  intro k
  induction k with
  | zero =>
    intro fuel q index qsize _ _ _ _
    simp [List.rotate_zero]
  | succ k ih =>
    intro fuel q index qsize hlen htake hidx hfuel
    obtain ⟨f, rfl⟩ : ∃ f, fuel = f + 1 := ⟨fuel - 1, by omega⟩
    cases q with
    | nil => simp at hlen
    | cons a q' =>
      have hk : k ≤ q'.length := by
        have := hlen
        simp at this
        omega
      have ha : a ≠ tid := htake a (by simp)
      have hstep : termLoop tid (f + 1) (a :: q') index qsize =
          termLoop tid f (q' ++ [a]) (index + 1) qsize := by
        simp [termLoop, show index < qsize by omega, ha]
      have htake' : ∀ x ∈ (q' ++ [a]).take k, x ≠ tid := by
        intro x hx
        rw [List.take_append_of_le_length hk] at hx
        refine htake x ?_
        rw [List.take_succ_cons]
        exact List.mem_cons_of_mem a hx
      rw [hstep, ih f (q' ++ [a]) (index + 1) qsize (by simp; omega) htake'
        (by omega) (by omega)]
      rw [← List.rotate_cons_succ]
      have h1 : f + 1 - (k + 1) = f - k := by omega
      have h2 : index + (k + 1) = index + 1 + k := by omega
      rw [h1, h2]

end MP5Sched

/-- C10 (amended): MP6's `terminate` removes exactly the first node holding
`t`, keeps every other thread in its original relative FIFO order, and
leaves the queue unchanged when `t` is absent.  MP5's `terminate` also
leaves the queue unchanged when `t` is absent (its loop then performs one
full rotation), and removes `t` with order preserved when `t` is the tail;
but when `t` sits in the interior the survivors come out rotated — the old
tail `b` moves in front (`b :: (A ++ C)` below) — so their original
relative order is NOT preserved (see the counterexample). -/
theorem C10_terminate :
    (∀ (A B : List Nat) (t : Nat), t ∉ A →
      MP6Sched.terminate (A ++ t :: B) t = A ++ B) ∧
    (∀ (q : List Nat) (t : Nat), t ∉ q → MP6Sched.terminate q t = q) ∧
    (∀ (q : List Nat) (t : Nat), t ∉ q → MP5Sched.terminate q t = q) ∧
    (∀ (A : List Nat) (t : Nat), t ∉ A →
      MP5Sched.terminate (A ++ [t]) t = A) ∧
    (∀ (A C : List Nat) (t b : Nat), t ∉ A → t ∉ C → t ≠ b →
      MP5Sched.terminate (A ++ t :: (C ++ [b])) t = b :: (A ++ C)) := by
  refine ⟨?_, ?_, ?_, ?_, ?_⟩
  · intro A B t htA
    induction A with
    | nil => simp [MP6Sched.terminate]
    | cons a A' ih =>
      have ha : a ≠ t := by intro h; exact htA (by simp [h])
      rw [List.cons_append]
      rw [show MP6Sched.terminate (a :: (A' ++ t :: B)) t =
        if a = t then A' ++ t :: B else a :: MP6Sched.terminate (A' ++ t :: B) t
        from rfl]
      rw [if_neg ha, ih (fun h => htA (by simp [h])), List.cons_append]
  · intro q t htq
    induction q with
    | nil => rfl
    | cons a q' ih =>
      have ha : a ≠ t := by intro h; exact htq (by simp [h])
      rw [show MP6Sched.terminate (a :: q') t =
        if a = t then q' else a :: MP6Sched.terminate q' t from rfl]
      rw [if_neg ha, ih (fun h => htq (by simp [h]))]
  · intro q t htq
    unfold MP5Sched.terminate
    rw [MP5Sched.termLoop_rotate t q.length q.length q 0 q.length le_rfl
      (by intro x hx; rw [List.take_length] at hx; exact fun h => htq (h ▸ hx))
      (by omega) le_rfl]
    rw [MP5Sched.termLoop_end _ _ _ _ _ (by omega)]
    simp [List.rotate_length]
  · intro A t htA
    unfold MP5Sched.terminate
    rw [show (A ++ [t]).length = A.length + 1 by simp]
    rw [MP5Sched.termLoop_rotate t A.length (A.length + 1) (A ++ [t]) 0
      (A.length + 1) (by simp)
      (by intro x hx; rw [List.take_left] at hx; exact fun h => htA (h ▸ hx))
      (by omega) (by omega)]
    rw [List.rotate_eq_drop_append_take (by simp)]
    rw [List.drop_left, List.take_left]
    rw [show ([t] ++ A) = t :: A from rfl]
    rw [MP5Sched.termLoop_hit t (A.length + 1 - A.length) A (0 + A.length)
      (A.length + 1) (by omega) (by omega)]
    rw [MP5Sched.termLoop_end _ _ _ _ _ (by omega)]
  · intro A C t b htA htC htb
    unfold MP5Sched.terminate
    rw [show (A ++ t :: (C ++ [b])).length = A.length + C.length + 2 by
      simp <;> omega]
    rw [MP5Sched.termLoop_rotate t A.length (A.length + C.length + 2)
      (A ++ t :: (C ++ [b])) 0 (A.length + C.length + 2)
      (by simp <;> omega)
      (by intro x hx; rw [List.take_left] at hx; exact fun h => htA (h ▸ hx))
      (by omega) (by omega)]
    rw [List.rotate_eq_drop_append_take (by simp <;> omega)]
    rw [List.drop_left, List.take_left]
    rw [List.cons_append]
    rw [MP5Sched.termLoop_hit t (A.length + C.length + 2 - A.length)
      ((C ++ [b]) ++ A) (0 + A.length) (A.length + C.length + 2)
      (by omega) (by omega)]
    rw [List.append_assoc]
    rw [MP5Sched.termLoop_rotate t C.length
      (A.length + C.length + 2 - A.length - 1) (C ++ ([b] ++ A))
      (0 + A.length + 1) (A.length + C.length + 2 - 1) (by simp)
      (by intro x hx; rw [List.take_left] at hx; exact fun h => htC (h ▸ hx))
      (by omega) (by omega)]
    rw [MP5Sched.termLoop_end _ _ _ _ _ (by omega)]
    rw [List.rotate_eq_drop_append_take (by simp)]
    rw [List.drop_left, List.take_left]
    simp

/-- C10 witness: MP6 removes 2 from `[1,2,3]` leaving `[1,3]`; MP5 removes
2 from `[1,2,5,9]` leaving the rotated `[9,1,5]`, and leaves `[1,2,3]`
unchanged when asked to remove the absent 9. -/
theorem C10_witness :
    MP6Sched.terminate [1, 2, 3] 2 = [1, 3] ∧
    MP5Sched.terminate [1, 2, 5, 9] 2 = [9, 1, 5] ∧
    MP5Sched.terminate [1, 2, 3] 9 = [1, 2, 3] := by
  refine ⟨?_, ?_, ?_⟩
  · have h := C10_terminate.1 [1] [3] 2 (by decide)
    simpa using h
  · have h := C10_terminate.2.2.2.2 [1] [5] 2 9 (by decide) (by decide)
      (by decide)
    simpa using h
  · exact C10_terminate.2.2.1 [1, 2, 3] 9 (by decide)

/-- C10 counterexample: MP5's `terminate` on ready queue `[1,2,3]` removing
thread 2 yields `[3,1]` — thread 1 now sits BEHIND thread 3, so the
surviving threads are not in their original relative FIFO order `[1,3]`. -/
theorem C10_counterexample :
    MP5Sched.terminate [1, 2, 3] 2 = [3, 1] ∧
    ([3, 1] : List Nat) ≠ [1, 3] := by
  refine ⟨by decide, by decide⟩

/-! ## Claim C1 — file write/read round trip -/

namespace FS

/-- SimpleDisk::BLOCK_SIZE. -/
def BLOCK_SIZE : Nat := 512

/-- A 512-byte buffer of zeroes (the File constructor's cache init, and the
zero fill of freshly allocated blocks). -/
def zeroBuf : Nat → Nat := fun _ => 0

/-- The copy loop of File::Write: bytes `[off, off + cc)` of the cache are
overwritten with `buf[bw], buf[bw+1], …`; the rest is unchanged. -/
def copyIn (cache : Nat → Nat) (off cc : Nat) (buf : Nat → Nat) (bw : Nat) :
    Nat → Nat :=
  fun j => if off ≤ j ∧ j < off + cc then buf (bw + (j - off)) else cache j

/-- The copy loop of File::Read: bytes `[off, off + cc)` of the cache, in
order. -/
def chunkOut (cache : Nat → Nat) (off cc : Nat) : List Nat :=
  (List.range cc).map fun i => cache (off + i)

/-- The state of the file system that File::Read/Write manipulate.  The
disk maps a block number and an offset to a stored value: for data blocks
the offset is the byte index, for a block-numbers (indirect) block it is
the 32-bit-word index — each block is only ever accessed through one of the
two views, so the byte-level cast in the C code is invisible.  Blocks 0 and
1 (inode table and free list, written by SaveInodes/SaveFreeList and never
read back through File operations) are not tracked.  `freeBlocks` is the
in-memory byte-per-block free map. -/
structure FSState where
  disk : Nat → Nat → Nat
  freeBlocks : Nat → Nat
  numBlocks : Nat

/-- The inode fields File::Read/Write use: `block_numbers_block` (the
indirect block; 0 = none), `num_blocks` and `file_length`. -/
structure InodeSt where
  indirect : Nat
  numBlocks : Nat
  fileLength : Nat
deriving DecidableEq

/-- The File cursor: `current_position`, `cached_block_idx`
(`none` models the `(unsigned)-1` sentinel) and the 512-byte cache. -/
structure FileSt where
  pos : Nat
  cachedIdx : Option Nat
  cache : Nat → Nat

/-- The scan of FileSystem::GetFreeBlock from block `i` upward: the first
block below `numBlocks` whose free-map byte is 0.  Fuel bounds the loop
(`numBlocks` iterations at most). -/
def freeScan (fs : FSState) : Nat → Nat → Option Nat
  | _, 0 => none
  | i, fuel + 1 =>
    if i < fs.numBlocks then
      if fs.freeBlocks i = 0 then some i else freeScan fs (i + 1) fuel
    else none

/-- FileSystem::GetFreeBlock — first-fit from block 2. -/
def GetFreeBlock (fs : FSState) : Option Nat := freeScan fs 2 fs.numBlocks

/-- The while loop of File::Write.  Arguments: fuel, file-system state,
inode, file cursor (whose `pos` stays fixed during the loop), the in-memory
`block_nums` array, and `bytes_written`.  Each pass allocates a data block
when `block_idx ≥ num_blocks` (breaking at MAX_BLOCKS or when no free block
exists), zero-fills it on disk, persists `block_nums` to the indirect
block, loads the target block into the cache unless already cached, copies
`copy_count = min(BLOCK_SIZE - offset, to_write - bytes_written)` bytes in,
and writes the cache through to disk.  SaveFreeList (block 1) is not
tracked.  Every pass advances `bytes_written` by at least one byte, so
`to_write + 1` fuel can never run out. -/
def writeLoop (maxBlocks : Nat) (buf : Nat → Nat) (toWrite : Nat) :
    Nat → FSState → InodeSt → FileSt → (Nat → Nat) → Nat →
    FSState × InodeSt × FileSt × (Nat → Nat) × Nat
  | 0, fs, ino, f, bnums, bw => (fs, ino, f, bnums, bw)
  | fuel + 1, fs, ino, f, bnums, bw =>
    if bw < toWrite then
      let p := f.pos + bw
      let bi := p / BLOCK_SIZE
      let off := p % BLOCK_SIZE
      let step : Option (FSState × InodeSt × FileSt × (Nat → Nat)) :=
        if ino.numBlocks ≤ bi then
          if maxBlocks ≤ ino.numBlocks then none
          else
            match GetFreeBlock fs with
            | none => none
            | some nb =>
              let bnums1 := upd bnums ino.numBlocks nb
              let fs1 : FSState :=
                { disk := upd fs.disk nb zeroBuf
                  freeBlocks := upd fs.freeBlocks nb 1
                  numBlocks := fs.numBlocks }
              let fs2 : FSState := { fs1 with disk := upd fs1.disk ino.indirect bnums1 }
              some (fs2, { ino with numBlocks := ino.numBlocks + 1 },
                { f with cache := zeroBuf }, bnums1)
        else some (fs, ino, f, bnums)
      match step with
      | none => (fs, ino, f, bnums, bw)
      | some (fs', ino', f', bnums') =>
        let f2 : FileSt :=
          if f'.cachedIdx = some bi then f'
          else { f' with
                  cache := if bnums' bi ≠ 0 then fs'.disk (bnums' bi) else zeroBuf
                  cachedIdx := some bi }
        let cc := min (BLOCK_SIZE - off) (toWrite - bw)
        let newCache := copyIn f2.cache off cc buf bw
        let fs4 : FSState := { fs' with disk := upd fs'.disk (bnums' bi) newCache }
        writeLoop maxBlocks buf toWrite fuel fs4 ino' { f2 with cache := newCache }
          bnums' (bw + cc)
    else (fs, ino, f, bnums, bw)

/-- File::Write.  A file without an indirect block writes nothing;
otherwise the request is clamped to `MAX_BLOCKS·BLOCK_SIZE - position`,
the `block_nums` array is loaded from the indirect block, the loop runs,
the position advances by the bytes written and `file_length` is stretched
when the cursor passed it. -/
def fileWrite (maxBlocks n : Nat) (buf : Nat → Nat)
    (fs : FSState) (ino : InodeSt) (f : FileSt) :
    FSState × InodeSt × FileSt × Nat :=
  if ino.indirect = 0 then (fs, ino, f, 0)
  else
    let maxWrite := maxBlocks * BLOCK_SIZE - f.pos
    let toWrite := min n maxWrite
    let bnums := fs.disk ino.indirect
    let r := writeLoop maxBlocks buf toWrite (toWrite + 1) fs ino f bnums 0
    let pos' := f.pos + r.2.2.2.2
    let ino' := r.2.1
    let ino'' := if ino'.fileLength < pos' then { ino' with fileLength := pos' } else ino'
    (r.1, ino'', { r.2.2.1 with pos := pos' }, r.2.2.2.2)

/-- The while loop of File::Read: breaks past `num_blocks` or at an
unallocated slot, loads the block into the cache on a miss, and copies
`copy_count` bytes out; the read bytes are accumulated as a list. -/
def readLoop (toRead : Nat) :
    Nat → FSState → InodeSt → FileSt → (Nat → Nat) → Nat →
    List Nat × FileSt × Nat
  | 0, _, _, f, _, br => ([], f, br)
  | fuel + 1, fs, ino, f, bnums, br =>
    if br < toRead then
      let p := f.pos + br
      let bi := p / BLOCK_SIZE
      let off := p % BLOCK_SIZE
      if ino.numBlocks ≤ bi ∨ bnums bi = 0 then ([], f, br)
      else
        let f2 : FileSt :=
          if f.cachedIdx = some bi then f
          else { f with
                  cache := if bnums bi ≠ 0 then fs.disk (bnums bi) else zeroBuf
                  cachedIdx := some bi }
        let cc := min (BLOCK_SIZE - off) (toRead - br)
        let r := readLoop toRead fuel fs ino f2 bnums (br + cc)
        (chunkOut f2.cache off cc ++ r.1, r.2.1, r.2.2)
    else ([], f, br)

/-- File::Read.  Clamps the request to `file_length - position`, loads
`block_nums`, runs the loop, and advances the position. -/
def fileRead (n : Nat) (fs : FSState) (ino : InodeSt) (f : FileSt) :
    List Nat × FileSt :=
  if ino.indirect = 0 then ([], f)
  else
    let available := ino.fileLength - f.pos
    let toRead := min n available
    let bnums := fs.disk ino.indirect
    let r := readLoop toRead (toRead + 1) fs ino f bnums 0
    (r.1, { r.2.1 with pos := r.2.1.pos + r.2.2 })

/-- File::Reset — rewind and invalidate the cache index. -/
def reset (f : FileSt) : FileSt := { f with pos := 0, cachedIdx := none }

/-- The file-system state as File operations see it right after
`Format(N·512)` followed by `CreateFile(id)`: blocks 0 and 1 are allocated
by Format, CreateFile's GetFreeBlock hands out block 2 as the file's
block-numbers block and zero-fills it on disk; all other blocks keep their
previous (arbitrary) contents `d` and stay free. -/
def createdFS (d : Nat → Nat → Nat) (N : Nat) : FSState :=
  { disk := upd d 2 zeroBuf
    freeBlocks := fun b => if b < 3 then 1 else 0
    numBlocks := N }

/-- The created file's inode: `{id, block_numbers_block = 2, 0, 0}`. -/
def createdInode : InodeSt := { indirect := 2, numBlocks := 0, fileLength := 0 }

/-- A freshly opened File handle (constructor): position 0, no cached
block, zeroed cache. -/
def newFile : FileSt := { pos := 0, cachedIdx := none, cache := zeroBuf }

/-- The claim's experiment: on a freshly created file, write the byte
sequence `S` from position 0, `Reset`, then read `S.length` bytes. -/
def roundTrip (maxBlocks N : Nat) (d : Nat → Nat → Nat) (S : List Nat) :
    List Nat :=
  let w := fileWrite maxBlocks S.length (fun i => S.getD i 0)
    (createdFS d N) createdInode newFile
  (fileRead S.length w.1 w.2.1 (reset w.2.2.1)).1

end FS

namespace FS

/-- The `block_nums` array after `k` allocations from the fresh state:
first-fit hands out blocks 3, 4, …, 3+k-1 in order. -/
def bnumsW (k : Nat) : Nat → Nat := fun i => if i < k then 3 + i else 0

/-- Contents of the `i`-th data block once written: the bytes of `S` at the
in-range positions, 0 in the zero-filled remainder of the block. -/
def chunkW (S : List Nat) (i : Nat) : Nat → Nat :=
  fun o => if o < min 512 (S.length - 512 * i) then S.getD (512 * i + o) 0 else 0

/-- The disk after `k` iterations of the write loop: the indirect block 2
holds `bnumsW k`, data blocks 3 … 3+k-1 hold their chunks, everything else
keeps its original contents. -/
def diskW (S : List Nat) (d : Nat → Nat → Nat) (k : Nat) : Nat → Nat → Nat :=
  fun b => if b = 2 then bnumsW k
    else if 3 ≤ b ∧ b < 3 + k then chunkW S (b - 3) else d b

/-- The free map after `k` data-block allocations. -/
def freeW (k : Nat) : Nat → Nat := fun b => if b < 3 + k then 1 else 0

/-- The whole file-system state after `k` write-loop iterations. -/
def fsW (S : List Nat) (d : Nat → Nat → Nat) (N k : Nat) : FSState :=
  { disk := diskW S d k, freeBlocks := freeW k, numBlocks := N }

/-- The inode after `k` write-loop iterations (the length is stretched only
after the loop). -/
def inoW (k : Nat) : InodeSt := { indirect := 2, numBlocks := k, fileLength := 0 }

theorem createdFS_eq (S : List Nat) (d : Nat → Nat → Nat) (N : Nat) :
    createdFS d N = fsW S d N 0 := by
  unfold createdFS fsW
  have hdisk : upd d 2 zeroBuf = diskW S d 0 := by
    funext b o
    by_cases hb : b = 2
    · subst hb
      simp [upd, diskW, bnumsW, zeroBuf]
    · have h3 : ¬(3 ≤ b ∧ b < 3 + 0) := by omega
      simp [upd, hb, diskW, h3]
  have hfree : (fun b => if b < 3 then 1 else 0) = freeW 0 := by
    funext b
    simp [freeW]
  rw [hdisk, hfree]

theorem freeScan_fsW (S : List Nat) (d : Nat → Nat → Nat) (N k : Nat)
    (hN : 3 + k < N) :
    ∀ fuel j, 2 ≤ j → j ≤ 3 + k → 3 + k + 1 - j ≤ fuel →
      freeScan (fsW S d N k) j fuel = some (3 + k) := by
  intro fuel
  induction fuel with
  | zero => intro j _ h3 h4; omega
  | succ fuel ih =>
    intro j h2 h3 h4
    rw [show freeScan (fsW S d N k) j (fuel + 1) =
      if j < (fsW S d N k).numBlocks then
        (if (fsW S d N k).freeBlocks j = 0 then some j
         else freeScan (fsW S d N k) (j + 1) fuel)
      else none from rfl]
    rw [show (fsW S d N k).numBlocks = N from rfl]
    rw [if_pos (by omega)]
    by_cases hj : j = 3 + k
    · subst hj
      rw [show (fsW S d N k).freeBlocks (3 + k) = 0 from by simp [fsW, freeW]]
      simp
    · have hjlt : j < 3 + k := by omega
      rw [show (fsW S d N k).freeBlocks j = 1 from by simp [fsW, freeW, hjlt]]
      rw [if_neg (by omega)]
      exact ih (j + 1) (by omega) (by omega) (by omega)

theorem getFree_fsW (S : List Nat) (d : Nat → Nat → Nat) (N k : Nat)
    (hN : 3 + k < N) : GetFreeBlock (fsW S d N k) = some (3 + k) := by
  unfold GetFreeBlock
  exact freeScan_fsW S d N k hN ((fsW S d N k).numBlocks) 2 (by omega)
    (by omega) (by simp only [fsW]; omega)

theorem bnums_step (k : Nat) : upd (bnumsW k) k (3 + k) = bnumsW (k + 1) := by
  funext i
  by_cases h : i = k
  · subst h
    simp [upd, bnumsW]
  · simp only [upd, bnumsW, if_neg h]
    split_ifs <;> omega

theorem free_step (k : Nat) : upd (freeW k) (3 + k) 1 = freeW (k + 1) := by
  funext b
  by_cases h : b = 3 + k
  · subst h
    simp [upd, freeW]
  · simp only [upd, freeW, if_neg h]
    split_ifs <;> omega

theorem diskW_at2 (S : List Nat) (d : Nat → Nat → Nat) (k : Nat) :
    diskW S d k 2 = bnumsW k := by
  simp [diskW]

theorem diskW_data (S : List Nat) (d : Nat → Nat → Nat) (k i : Nat)
    (h : i < k) : diskW S d k (3 + i) = chunkW S i := by
  have h1 : ¬(3 + i = 2) := by omega
  have h2 : 3 ≤ 3 + i ∧ 3 + i < 3 + k := by omega
  have h3 : 3 + i - 3 = i := by omega
  simp [diskW, h1, h2, h3]

theorem disk_step (S : List Nat) (d : Nat → Nat → Nat) (k : Nat) :
    upd (upd (upd (diskW S d k) (3 + k) zeroBuf) 2 (bnumsW (k + 1))) (3 + k)
      (chunkW S k) = diskW S d (k + 1) := by
  funext b
  by_cases hb : b = 3 + k
  · subst hb
    rw [upd_same]
    rw [diskW_data S d (k + 1) k (by omega)]
  · rw [upd_ne _ _ _ _ hb]
    by_cases hb2 : b = 2
    · subst hb2
      rw [upd_same, diskW_at2]
    · rw [upd_ne _ _ _ _ hb2, upd_ne _ _ _ _ hb]
      simp only [diskW, if_neg hb2]
      by_cases h3 : 3 ≤ b ∧ b < 3 + k
      · rw [if_pos h3, if_pos (show 3 ≤ b ∧ b < 3 + (k + 1) by omega)]
      · rw [if_neg h3, if_neg (show ¬(3 ≤ b ∧ b < 3 + (k + 1)) by omega)]

theorem copyIn_zero (S : List Nat) (k : Nat) :
    copyIn zeroBuf 0 (min 512 (S.length - 512 * k)) (fun i => S.getD i 0)
      (512 * k) = chunkW S k := by
  funext j
  simp only [copyIn, chunkW, zeroBuf, Nat.zero_add, Nat.sub_zero, Nat.zero_le,
    true_and]

theorem writeLoop_done (maxBlocks : Nat) (buf : Nat → Nat) (toWrite fuel : Nat)
    (fs : FSState) (ino : InodeSt) (f : FileSt) (bnums : Nat → Nat) (bw : Nat)
    (h : toWrite ≤ bw) :
    writeLoop maxBlocks buf toWrite fuel fs ino f bnums bw =
      (fs, ino, f, bnums, bw) := by
  cases fuel with
  | zero => rfl
  | succ fuel => simp [writeLoop, Nat.not_lt.2 h]

theorem readLoop_done (toRead fuel : Nat) (fs : FSState) (ino : InodeSt)
    (f : FileSt) (bnums : Nat → Nat) (br : Nat) (h : toRead ≤ br) :
    readLoop toRead fuel fs ino f bnums br = ([], f, br) := by
  cases fuel with
  | zero => rfl
  | succ fuel => simp [readLoop, Nat.not_lt.2 h]

end FS

namespace FS

set_option maxHeartbeats 1000000 in
/-- One pass of the write loop from the canonical state after `k` passes:
block `3+k` is allocated, zero-filled, loaded and overwritten with the next
`min 512 (L - 512k)` bytes of `S`, moving to the canonical state after
`k+1` passes. -/
theorem writeLoop_step (maxBlocks : Nat) (S : List Nat) (d : Nat → Nat → Nat)
    (N k : Nat) (idx : Option Nat) (c : Nat → Nat) (fuel : Nat)
    (h512 : 512 * k < S.length)
    (hmaxk : k < maxBlocks)
    (hNk : 3 + k < N)
    (hidx : ∀ j, idx = some j → j < k) :
    writeLoop maxBlocks (fun i => S.getD i 0) S.length (fuel + 1)
        (fsW S d N k) (inoW k) ⟨0, idx, c⟩ (bnumsW k) (512 * k)
      = writeLoop maxBlocks (fun i => S.getD i 0) S.length fuel
          (fsW S d N (k + 1)) (inoW (k + 1)) ⟨0, some k, chunkW S k⟩
          (bnumsW (k + 1)) (512 * k + min 512 (S.length - 512 * k)) := by
  have hidxne : ¬(idx = some k) := fun h => by have := hidx k h; omega
  have ebk : bnumsW (k + 1) k = 3 + k := by simp [bnumsW]
  have hne2 : (3 : Nat) + k ≠ 2 := by omega
  have hnz : (3 : Nat) + k ≠ 0 := by omega
  simp only [writeLoop, BLOCK_SIZE, Nat.zero_add]
  rw [if_pos h512]
  rw [show (inoW k).numBlocks = k from rfl, show (inoW k).indirect = 2 from rfl,
    show (inoW k).fileLength = 0 from rfl,
    show (fsW S d N k).disk = diskW S d k from rfl,
    show (fsW S d N k).freeBlocks = freeW k from rfl,
    show (fsW S d N k).numBlocks = N from rfl]
  rw [show 512 * k / 512 = k from by omega,
    show 512 * k % 512 = 0 from by omega]
  rw [if_pos (le_refl k)]
  rw [if_neg (show ¬ maxBlocks ≤ k by omega)]
  rw [getFree_fsW S d N k hNk]
  simp only []
  rw [bnums_step, free_step]
  rw [if_neg hidxne]
  rw [ebk]
  rw [if_pos hnz]
  rw [upd_ne _ _ _ _ hne2, upd_same]
  rw [Nat.sub_zero]
  rw [copyIn_zero S k]
  rw [disk_step]
  rfl

/-- Running the write loop from the canonical state after `k` passes, with
`r = ceil(L/512) - k` passes to go and enough fuel, lands in the canonical
final state with all `L` bytes written.  The cursor's cached index and
cache contents on entry are arbitrary (any cached index below `k`). -/
theorem writeLoop_run (maxBlocks : Nat) (S : List Nat) (d : Nat → Nat → Nat)
    (N : Nat)
    (hmax : S.length ≤ maxBlocks * 512)
    (hN : 3 + (S.length + 511) / 512 ≤ N) :
    ∀ (r k : Nat) (idx : Option Nat) (c : Nat → Nat) (fuel : Nat),
      (S.length + 511) / 512 = k + r →
      512 * k ≤ S.length →
      (∀ j, idx = some j → j < k) →
      S.length - 512 * k < fuel →
      ∃ idx' c', writeLoop maxBlocks (fun i => S.getD i 0) S.length fuel
          (fsW S d N k) (inoW k) ⟨0, idx, c⟩ (bnumsW k) (512 * k)
        = (fsW S d N ((S.length + 511) / 512), inoW ((S.length + 511) / 512),
           (⟨0, idx', c'⟩ : FileSt), bnumsW ((S.length + 511) / 512),
           S.length) := by
  intro r
  induction r with
  | zero =>
    intro k idx c fuel hK h512 hidx hfuel
    have hL : S.length = 512 * k := by omega
    refine ⟨idx, c, ?_⟩
    rw [writeLoop_done _ _ _ _ _ _ _ _ _ (by omega)]
    rw [hK, Nat.add_zero, ← hL]
  | succ r ih =>
    intro k idx c fuel hK h512 hidx hfuel
    have h512' : 512 * k < S.length := by omega
    obtain ⟨f1, rfl⟩ : ∃ f1, fuel = f1 + 1 := ⟨fuel - 1, by omega⟩
    rw [writeLoop_step maxBlocks S d N k idx c f1 h512' (by omega) (by omega)
      hidx]
    by_cases hlast : S.length ≤ 512 * (k + 1)
    · have hcc : min 512 (S.length - 512 * k) = S.length - 512 * k := by omega
      rw [hcc, show 512 * k + (S.length - 512 * k) = S.length by omega]
      refine ⟨some k, chunkW S k, ?_⟩
      rw [writeLoop_done _ _ _ _ _ _ _ _ _ (by omega)]
      rw [show (S.length + 511) / 512 = k + 1 by omega]
    · have hcc : min 512 (S.length - 512 * k) = 512 := by omega
      rw [hcc, show 512 * k + 512 = 512 * (k + 1) by omega]
      exact ih (k + 1) (some k) (chunkW S k) f1 (by omega) (by omega)
        (by intro j hj; cases hj; omega) (by omega)

end FS

namespace FS

theorem chunkOut_eq (S : List Nat) (k cc : Nat)
    (h : cc ≤ min 512 (S.length - 512 * k)) :
    chunkOut (chunkW S k) 0 cc =
      (List.range cc).map (fun i => S.getD (512 * k + i) 0) := by
  unfold chunkOut
  refine List.map_congr_left ?_
  intro i hi
  rw [List.mem_range] at hi
  simp only [chunkW, Nat.zero_add]
  rw [if_pos (by omega)]

theorem getD_range_drop (S : List Nat) :
    ∀ (m a : Nat), a + m ≤ S.length →
      (List.range m).map (fun i => S.getD (a + i) 0) ++ S.drop (a + m) =
        S.drop a := by
  intro m
  induction m with
  | zero =>
    intro a h
    simp
  | succ m ih =>
    intro a h
    have hlt : a + m < S.length := by omega
    rw [List.range_succ, List.map_append, List.append_assoc]
    rw [show a + (m + 1) = (a + m) + 1 by omega]
    simp only [List.map_cons, List.map_nil, List.cons_append, List.nil_append]
    rw [List.getD_eq_getElem S 0 hlt]
    rw [← List.drop_eq_getElem_cons hlt]
    exact ih a (by omega)

set_option maxHeartbeats 1000000 in
theorem readLoop_step (S : List Nat) (d : Nat → Nat → Nat) (N K k : Nat)
    (idx : Option Nat) (c : Nat → Nat) (fuel : Nat)
    (h512 : 512 * k < S.length)
    (hkK : k < K)
    (hidx : ∀ j, idx = some j → j < k) :
    readLoop S.length (fuel + 1) (fsW S d N K) ⟨2, K, S.length⟩
        ⟨0, idx, c⟩ (bnumsW K) (512 * k)
      = (chunkOut (chunkW S k) 0 (min 512 (S.length - 512 * k)) ++
          (readLoop S.length fuel (fsW S d N K) ⟨2, K, S.length⟩
            ⟨0, some k, chunkW S k⟩ (bnumsW K)
            (512 * k + min 512 (S.length - 512 * k))).1,
         (readLoop S.length fuel (fsW S d N K) ⟨2, K, S.length⟩
            ⟨0, some k, chunkW S k⟩ (bnumsW K)
            (512 * k + min 512 (S.length - 512 * k))).2.1,
         (readLoop S.length fuel (fsW S d N K) ⟨2, K, S.length⟩
            ⟨0, some k, chunkW S k⟩ (bnumsW K)
            (512 * k + min 512 (S.length - 512 * k))).2.2) := by
  have hidxne : ¬(idx = some k) := fun h => by have := hidx k h; omega
  have ebk : bnumsW K k = 3 + k := by simp [bnumsW, hkK]
  have hnz : (3 : Nat) + k ≠ 0 := by omega
  simp only [readLoop, BLOCK_SIZE, Nat.zero_add]
  rw [if_pos h512]
  rw [show 512 * k / 512 = k from by omega,
    show 512 * k % 512 = 0 from by omega]
  rw [ebk]
  rw [if_neg (show ¬(K ≤ k ∨ 3 + k = 0) from by rintro (h | h) <;> omega)]
  rw [if_neg hidxne]
  rw [if_pos hnz]
  rw [show (fsW S d N K).disk = diskW S d K from rfl]
  rw [diskW_data S d K k hkK]

set_option maxHeartbeats 1000000 in
theorem readLoop_run (S : List Nat) (d : Nat → Nat → Nat) (N : Nat) :
    ∀ (r k : Nat) (idx : Option Nat) (c : Nat → Nat) (fuel : Nat),
      (S.length + 511) / 512 = k + r →
      512 * k ≤ S.length →
      (∀ j, idx = some j → j < k) →
      S.length - 512 * k < fuel →
      ∃ f', readLoop S.length fuel (fsW S d N ((S.length + 511) / 512))
          ⟨2, (S.length + 511) / 512, S.length⟩ ⟨0, idx, c⟩
          (bnumsW ((S.length + 511) / 512)) (512 * k)
        = (S.drop (512 * k), f', S.length) := by
  intro r
  induction r with
  | zero =>
    intro k idx c fuel hK h512 hidx hfuel
    have hL : S.length = 512 * k := by omega
    refine ⟨⟨0, idx, c⟩, ?_⟩
    rw [readLoop_done _ _ _ _ _ _ _ (by omega)]
    rw [← hL, List.drop_length]
  | succ r ih =>
    intro k idx c fuel hK h512 hidx hfuel
    have h512' : 512 * k < S.length := by omega
    obtain ⟨f1, rfl⟩ : ∃ f1, fuel = f1 + 1 := ⟨fuel - 1, by omega⟩
    rw [readLoop_step S d N ((S.length + 511) / 512) k idx c f1 h512'
      (by omega) hidx]
    by_cases hlast : S.length ≤ 512 * (k + 1)
    · have hcc : min 512 (S.length - 512 * k) = S.length - 512 * k := by omega
      rw [hcc, show 512 * k + (S.length - 512 * k) = S.length by omega]
      rw [readLoop_done _ _ _ _ _ _ _ (le_refl _)]
      refine ⟨⟨0, some k, chunkW S k⟩, ?_⟩
      simp only []
      rw [chunkOut_eq S k _ (by omega)]
      have hd := getD_range_drop S (S.length - 512 * k) (512 * k) (by omega)
      rw [show 512 * k + (S.length - 512 * k) = S.length by omega] at hd
      rw [List.drop_length, List.append_nil] at hd
      rw [List.append_nil, hd]
    · have hcc : min 512 (S.length - 512 * k) = 512 := by omega
      rw [hcc, show 512 * k + 512 = 512 * (k + 1) by omega]
      obtain ⟨f', hrest⟩ := ih (k + 1) (some k) (chunkW S k) f1 (by omega)
        (by omega) (by intro j hj; cases hj; omega) (by omega)
      rw [hrest]
      refine ⟨f', ?_⟩
      simp only []
      rw [chunkOut_eq S k 512 (by omega)]
      have hd := getD_range_drop S 512 (512 * k) (by omega)
      rw [show 512 * k + 512 = 512 * (k + 1) by omega] at hd
      rw [hd]

set_option maxHeartbeats 1000000 in
/-- C1: writing a byte string `S` into a freshly created file on a freshly
created file system (indirect block 2, first-fit allocation from block 3)
and reading it back from position 0 returns exactly `S`, provided `S` fits
in `maxBlocks` data blocks and the disk has room for the needed blocks. -/
theorem C1_file_roundtrip (maxBlocks N : Nat) (d : Nat → Nat → Nat)
    (S : List Nat)
    (hmax : S.length ≤ maxBlocks * 512)
    (hN : 3 + (S.length + 511) / 512 ≤ N) :
    roundTrip maxBlocks N d S = S := by
  obtain ⟨idx', c', hw⟩ := writeLoop_run maxBlocks S d N hmax hN
    ((S.length + 511) / 512) 0 none zeroBuf (S.length + 1) (by omega) (by omega)
    (by intro j hj; cases hj) (by omega)
  simp only [Nat.mul_zero] at hw
  obtain ⟨f', hr⟩ := readLoop_run S d N ((S.length + 511) / 512) 0 none c'
    (S.length + 1) (by omega) (by omega) (by intro j hj; cases hj) (by omega)
  simp only [Nat.mul_zero] at hr
  have hWrap : fileWrite maxBlocks S.length (fun i => S.getD i 0)
      (createdFS d N) createdInode newFile =
      (fsW S d N ((S.length + 511) / 512),
       (⟨2, (S.length + 511) / 512, S.length⟩ : InodeSt),
       (⟨S.length, idx', c'⟩ : FileSt), S.length) := by
    unfold fileWrite
    rw [createdFS_eq S d N]
    rw [show createdInode = inoW 0 from rfl]
    rw [if_neg (show ¬((inoW 0).indirect = 0) from by simp [inoW])]
    simp only [BLOCK_SIZE, newFile, Nat.sub_zero]
    rw [Nat.min_eq_left hmax]
    rw [show (inoW 0).indirect = 2 from rfl]
    rw [show (fsW S d N 0).disk = diskW S d 0 from rfl, diskW_at2]
    rw [hw]
    simp only [Nat.zero_add]
    rw [show (inoW ((S.length + 511) / 512)).fileLength = 0 from rfl]
    by_cases hL0 : 0 < S.length
    · rw [if_pos hL0]
      simp [inoW]
    · rw [if_neg hL0]
      have hL : S.length = 0 := by omega
      simp [inoW, hL]
  have hRead : (fileRead S.length (fsW S d N ((S.length + 511) / 512))
      ⟨2, (S.length + 511) / 512, S.length⟩
      (⟨0, none, c'⟩ : FileSt)).1 = S := by
    unfold fileRead
    rw [if_neg (show ¬((⟨2, (S.length + 511) / 512, S.length⟩ : InodeSt).indirect = 0)
      from by simp)]
    simp only [Nat.sub_zero, Nat.min_self]
    rw [show (fsW S d N ((S.length + 511) / 512)).disk =
      diskW S d ((S.length + 511) / 512) from rfl, diskW_at2]
    rw [hr]
    simp
  unfold roundTrip
  rw [hWrap]
  simp only []
  rw [show reset (⟨S.length, idx', c'⟩ : FileSt) = (⟨0, none, c'⟩ : FileSt)
    from rfl]
  exact hRead

/-- Witness for C1: a concrete 3-byte file on an 8-block disk round-trips. -/
theorem C1_witness :
    ([7, 8, 9] : List Nat).length ≤ 128 * 512 ∧
    3 + (([7, 8, 9] : List Nat).length + 511) / 512 ≤ 8 ∧
    roundTrip 128 8 (fun _ _ => 0) [7, 8, 9] = [7, 8, 9] :=
  ⟨by decide, by decide,
   C1_file_roundtrip 128 8 (fun _ _ => 0) [7, 8, 9] (by decide) (by decide)⟩

end FS
